import Mathlib

/-!
Verification of the `mingle` session-manager CLI (Go, `src/main.go`).

The program aggregates terminal-multiplexer (tmux) sessions from four
sources — live tmux sessions, flat config entries, worktree-expanded
config entries, and zoxide (frecency-index) results — into one
deduplicated, name-normalized catalog, and connects to a session by
name (creating it first when needed, then switching or attaching).

External process invocations are modelled explicitly: each external
tool's raw standard output is an `Option String` parameter (`none`
meaning the command could not run or exited non-zero), and the side
effects of a command path are collected as a trace of `ExtCmd` events.
Functions that can write diagnostic lines return them alongside their
value.
-/

namespace Mingle

/-- The unified session record (struct `Session` in `main.go`).  Go's
zero value `""` for a string field stands for an absent value. -/
structure Session where
  name : String
  path : String
  type : String
  tmuxinator : String
  deriving DecidableEq, Repr

/-- A config-file entry (struct `ConfigSession` in `main.go`): `type`
is a nullable string (`*string`), `path` the (already home-expanded)
directory, `tmuxinator` an optional profile name (`""` = absent). -/
structure ConfigSession where
  type : Option String
  path : String
  tmuxinator : String
  deriving DecidableEq, Repr

/-- One external process event.  The first three are read-only listing
queries; the last four mutate multiplexer state or take over the
terminal. -/
inductive ExtCmd where
  | tmuxListSessions
  | zoxideQuery
  | gitWorktreeList (root : String)
  | newSession (name : String) (path : String)
  | tmuxinatorStart (path : String) (name : String) (profile : String)
  | switchClient (name : String)
  | attachSession (name : String)
  deriving DecidableEq, Repr

/-- Whether an external command mutates multiplexer/terminal state
(session creation, client switch, attach), as opposed to the read-only
listing queries. -/
def ExtCmd.isMutating : ExtCmd → Bool
  | .tmuxListSessions => false
  | .zoxideQuery => false
  | .gitWorktreeList _ => false
  | .newSession _ _ => true
  | .tmuxinatorStart _ _ _ => true
  | .switchClient _ => true
  | .attachSession _ => true

/-- Go's `unicode.IsSpace` restricted to the code points the tool can
meet on a line of tool output (ASCII whitespace plus NEL and NBSP). -/
def isGoSpace (c : Char) : Bool :=
  c.val == 32 || c.val == 9 || c.val == 10 || c.val == 11 || c.val == 12 ||
    c.val == 13 || c.val == 133 || c.val == 160

/-- Split a character list at every newline, keeping empty pieces —
the behaviour of Go's `strings.Split(s, "\n")`. -/
def splitLinesAux : List Char → List (List Char)
  | [] => [[]]
  | c :: rest =>
    if c = '\n' then [] :: splitLinesAux rest
    else
      match splitLinesAux rest with
      | [] => [[c]]
      | l :: ls => (c :: l) :: ls

/-- Model of `strings.Split(s, "\n")`. -/
def splitLines (s : String) : List String :=
  (splitLinesAux s.data).map String.mk

/-- Model of `strings.TrimSpace`: drop leading and trailing whitespace. -/
def trimSpace (s : String) : String :=
  ⟨((s.data.dropWhile isGoSpace).reverse.dropWhile isGoSpace).reverse⟩

/-- Model of `strings.ReplaceAll(name, ".", "_")` — the pattern is a single
character, so this is a character-wise replacement. -/
def normalizeName (s : String) : String :=
  ⟨s.data.map (fun c => if c = '.' then '_' else c)⟩

/-- A session with its name normalized (the rewrite `addSession`
applies before inserting into the catalog). -/
def normSession (s : Session) : Session :=
  { s with name := normalizeName s.name }

/-- Model of `getTmuxSessions` (main.go:125-141): run `tmux list-sessions -F
'#{session_name}'`; on failure return no sessions (and print nothing —
the second component collects diagnostic lines, of which this function
emits none); on success parse one session per non-blank line. -/
def getTmuxSessions (output : Option String) : List Session × List String :=
  match output with
  | none => ([], [])
  | some out =>
    ((splitLines out).filterMap (fun line =>
      let trimmed := trimSpace line
      if trimmed = "" then none
      else some { name := trimmed, path := "", type := "", tmuxinator := "" }), [])

/-- Model of `getZoxideResults` (main.go:143-159): run `zoxide query -l`; on
failure return no sessions (emitting no diagnostic); on success each
non-blank line becomes a session whose name and path are that line. -/
def getZoxideResults (output : Option String) : List Session × List String :=
  match output with
  | none => ([], [])
  | some out =>
    ((splitLines out).filterMap (fun line =>
      let trimmed := trimSpace line
      if trimmed = "" then none
      else some { name := trimmed, path := trimmed, type := "", tmuxinator := "" }), [])

/-- Model of `getGitWorktrees` (main.go:161-177): run `git -C root worktree
list --porcelain`; on failure return no worktrees (emitting no
diagnostic); on success keep the lines starting with `"worktree "`,
drop that 9-character prefix and trim. -/
def getGitWorktrees (output : Option String) : List String × List String :=
  match output with
  | none => ([], [])
  | some out =>
    (((splitLines out).filter (fun line => ("worktree ".data).isPrefixOf line.data)).map
      (fun line => trimSpace ⟨line.data.drop 9⟩), [])

/-- The config loop of `getSessions` (main.go:79-95): partition config
entries into flat sessions (name = path) and worktree-expanded
sessions, in config order; the third component is the trace of git
worktree queries issued.  `wtOut root` is the raw output of the git
worktree listing for `root`. -/
def splitConfigSessions (wtOut : String → Option String) :
    List ConfigSession → List Session × List Session × List ExtCmd
  | [] => ([], [], [])
  | c :: rest =>
    let r := splitConfigSessions wtOut rest
    if c.type = some "worktreeroot" then
      (r.1,
       ((getGitWorktrees (wtOut c.path)).1.map
         (fun w => { name := w, path := w, type := "worktreeroot", tmuxinator := c.tmuxinator })) ++ r.2.1,
       ExtCmd.gitWorktreeList c.path :: r.2.2)
    else
      ({ name := c.path, path := c.path, type := "", tmuxinator := c.tmuxinator } :: r.1,
       r.2.1, r.2.2)

/-- The `addSession` loop of `getSessions` (main.go:97-120): walk the
concatenated list, normalize each name, keep the entry when its
normalized name has not been seen, and record the name as seen. -/
def dedupNormalize (seen : List String) : List Session → List Session
  | [] => []
  | s :: rest =>
    let name := normalizeName s.name
    if name ∈ seen then dedupNormalize seen rest
    else { s with name := name } :: dedupNormalize (name :: seen) rest

/-- Model of `getSessions` (main.go:68-123), with the config already loaded:
query tmux and zoxide, expand config entries, and merge the four
groups (tmux, flat config, worktree config, zoxide — in that order)
through the `addSession` dedup loop.  Also returns the trace of
listing queries issued. -/
def getSessions (config : List ConfigSession) (tmuxOut zoxideOut : Option String)
    (wtOut : String → Option String) : List Session × List ExtCmd :=
  let tmuxSessions := (getTmuxSessions tmuxOut).1
  let zoxideSessions := (getZoxideResults zoxideOut).1
  let split := splitConfigSessions wtOut config
  (dedupNormalize [] (tmuxSessions ++ split.1 ++ split.2.1 ++ zoxideSessions),
   ExtCmd.tmuxListSessions :: ExtCmd.zoxideQuery :: split.2.2)

/-- Model of `switchToTmuxSession` (main.go:179-185): run `tmux switch-client
-t name`; `runOk` tells whether the external command exits zero. -/
def switchToTmuxSession (runOk : ExtCmd → Bool) (sessionName : String) :
    Except String Unit × List ExtCmd :=
  (if runOk (ExtCmd.switchClient sessionName) then Except.ok ()
   else Except.error "error switching to tmux session",
   [ExtCmd.switchClient sessionName])

/-- Model of `createTmuxSession` (main.go:187-207): an empty path is an error
before any command runs; with a tmuxinator profile, launch
`cd path && yes | tmuxinator start -n name -p profile --no-attach`
(prompt auto-confirmed, run to completion, session left detached);
otherwise run `tmux new-session -s name -d -c path` (detached, named,
with working directory).  A non-zero exit of either command is an
error. -/
def createTmuxSession (runOk : ExtCmd → Bool) (session : Session) :
    Except String Unit × List ExtCmd :=
  if session.path = "" then
    (Except.error "session path is missing, cannot create session", [])
  else if session.tmuxinator ≠ "" then
    (if runOk (ExtCmd.tmuxinatorStart session.path session.name session.tmuxinator) then
       Except.ok ()
     else Except.error "error starting tmuxinator session",
     [ExtCmd.tmuxinatorStart session.path session.name session.tmuxinator])
  else
    (if runOk (ExtCmd.newSession session.name session.path) then Except.ok ()
     else Except.error "error creating new tmux session",
     [ExtCmd.newSession session.name session.path])

/-- Model of `isInsideTmuxSession` (main.go:311-313): reads the `TMUX`
environment variable; it is a boolean parameter of the model. -/
def isInsideTmuxSession (tmuxEnv : String) : Bool :=
  tmuxEnv ≠ ""

/-- Outcome of the `connect` command: `RunE` returned `nil` (`ok`),
`RunE` returned an error or the process printed a diagnostic and
exited non-zero (`err`), or the process image was replaced by
`tmux attach-session` (`execAttach`). -/
inductive ConnectResult where
  | ok
  | err (msg : String)
  | execAttach (name : String)
  deriving DecidableEq, Repr

/-- The tail of the `connect` branch for a process not inside tmux
(main.go:279-292): locate the tmux binary (`tmuxOnPath`; failure
prints and exits 1), then replace the process with
`tmux attach-session -t sessionName` (an exec failure prints and
exits 1). -/
def execTmuxAttach (runOk : ExtCmd → Bool) (tmuxOnPath : Bool) (sessionName : String) :
    ConnectResult × List ExtCmd :=
  if tmuxOnPath then
    (if runOk (ExtCmd.attachSession sessionName) then ConnectResult.execAttach sessionName
     else ConnectResult.err "error executing tmux",
     [ExtCmd.attachSession sessionName])
  else
    (ConnectResult.err "error finding tmux", [])

/-- Model of the `connect` command (main.go:227-298), `RunE` body.  Parameters: `args` the
CLI arguments after `connect`; `configRes` the result of `loadConfig`;
`tmuxOut`, `zoxideOut`, `wtOut` the listing outputs used while the
catalog is built; `tmuxOut2` the output of the fresh
`tmux list-sessions` existence check; `insideTmux` whether `TMUX` is
set; `tmuxOnPath` whether the tmux binary is found; `runOk` the exit
status of each external mutating command.  Returns the outcome and
the trace of external commands invoked. -/
def connectSessionCmd (runOk : ExtCmd → Bool) (args : List String)
    (configRes : Except String (List ConfigSession))
    (tmuxOut zoxideOut : Option String) (wtOut : String → Option String)
    (tmuxOut2 : Option String) (insideTmux tmuxOnPath : Bool) :
    ConnectResult × List ExtCmd :=
  match args with
  | [] => (ConnectResult.ok, [])
  | sessionName :: _ =>
    match configRes with
    | Except.error e => (ConnectResult.err e, [])
    | Except.ok config =>
      let sres := getSessions config tmuxOut zoxideOut wtOut
      match sres.1.find? (fun s => s.name == sessionName) with
      | none => (ConnectResult.err ("session " ++ sessionName ++ " not found"), sres.2)
      | some selectedSession =>
        let tmuxSessions := (getTmuxSessions tmuxOut2).1
        let tr := sres.2 ++ [ExtCmd.tmuxListSessions]
        let sessionExists := tmuxSessions.any (fun s => s.name == selectedSession.name)
        if insideTmux then
          if sessionExists then
            let sw := switchToTmuxSession runOk selectedSession.name
            (match sw.1 with
             | Except.ok _ => ConnectResult.ok
             | Except.error e => ConnectResult.err e,
             tr ++ sw.2)
          else
            let cr := createTmuxSession runOk selectedSession
            match cr.1 with
            | Except.error e => (ConnectResult.err e, tr ++ cr.2)
            | Except.ok _ =>
              let sw := switchToTmuxSession runOk selectedSession.name
              (match sw.1 with
               | Except.ok _ => ConnectResult.ok
               | Except.error e => ConnectResult.err e,
               tr ++ cr.2 ++ sw.2)
        else
          if sessionExists then
            let att := execTmuxAttach runOk tmuxOnPath sessionName
            (att.1, tr ++ att.2)
          else
            let cr := createTmuxSession runOk selectedSession
            match cr.1 with
            | Except.error e => (ConnectResult.err e, tr ++ cr.2)
            | Except.ok _ =>
              let att := execTmuxAttach runOk tmuxOnPath sessionName
              (att.1, tr ++ cr.2 ++ att.2)

/-- Model of the `list` command (main.go:209-225), `RunE` body: build the catalog and print
each session name on its own line (modelled as the list of printed
names); a config-load error is returned unchanged. -/
def listSessionsCmd (configRes : Except String (List ConfigSession))
    (tmuxOut zoxideOut : Option String) (wtOut : String → Option String) :
    Except String (List String) :=
  match configRes with
  | Except.error e => Except.error e
  | Except.ok config =>
    Except.ok ((getSessions config tmuxOut zoxideOut wtOut).1.map (fun s => s.name))

/-! ## Specification-side formulations

The following `spec*` definitions are written from the specification's
wording (§4.3 of the spec: concatenate the four groups, normalize
every name, then deduplicate by normalized name keeping the first
occurrence and discarding later duplicates), to be compared with the
source-derived `getSessions` pipeline. -/

/-- Spec §4.3 step 5: deduplicate by name, keeping the first
occurrence and discarding every later entry with the same name. -/
def specDedupFirst : List Session → List Session
  | [] => []
  | s :: rest => s :: specDedupFirst (rest.filter (fun x => !(x.name == s.name)))
termination_by l => l.length
decreasing_by
  simp only [List.length_cons]
  exact Nat.lt_succ_of_le (List.length_filter_le _ _)

/-- Spec §4.3 step 3: the flat config sessions — the config entries
whose type is not `worktreeroot`, each becoming a session whose name
equals its path. -/
def specFlatSessions (config : List ConfigSession) : List Session :=
  (config.filter (fun c => !(c.type == some "worktreeroot"))).map
    (fun c => { name := c.path, path := c.path, type := "", tmuxinator := c.tmuxinator })

/-- Spec §4.3 step 2: the worktree-expanded config sessions — one
session per worktree of each `worktreeroot` entry, with name = path =
the worktree's path, inheriting the entry's template profile. -/
def specWorktreeSessions (wtOut : String → Option String) (config : List ConfigSession) :
    List Session :=
  (config.filter (fun c => c.type == some "worktreeroot")).flatMap
    (fun c => (getGitWorktrees (wtOut c.path)).1.map
      (fun w => { name := w, path := w, type := "worktreeroot", tmuxinator := c.tmuxinator }))

/-! ## Helper lemmas about the dedup loop -/

/-- Plain first-wins dedup by (already normalized) name with an
explicit seen set: the shape `dedupNormalize` takes on a list whose
names are already normalized. -/
def dedupSeen (seen : List String) : List Session → List Session
  | [] => []
  | s :: rest =>
    if s.name ∈ seen then dedupSeen seen rest
    else s :: dedupSeen (s.name :: seen) rest

theorem normSession_name (s : Session) : (normSession s).name = normalizeName s.name := rfl

theorem dedupNormalize_eq_dedupSeen (l : List Session) : ∀ seen : List String,
    dedupNormalize seen l = dedupSeen seen (l.map normSession) := by
  induction l with
  | nil => intro seen; rfl
  | cons s rest ih =>
    intro seen
    simp only [dedupNormalize, List.map_cons, dedupSeen, normSession_name]
    by_cases h : normalizeName s.name ∈ seen
    · rw [if_pos h, if_pos h, ih]
    · rw [if_neg h, if_neg h, ih]
      rfl

theorem dedupSeen_eq_specDedupFirst (l : List Session) : ∀ seen : List String,
    dedupSeen seen l = specDedupFirst (l.filter (fun s => !(seen.contains s.name))) := by
  induction l with
  | nil => intro seen; simp [dedupSeen, specDedupFirst]
  | cons s rest ih =>
    intro seen
    by_cases h : s.name ∈ seen
    · rw [dedupSeen, if_pos h]
      have hc : (!(seen.contains s.name)) = false := by
        simp [List.elem_iff, h]
      simp only [List.filter_cons, hc]
      exact ih seen
    · rw [dedupSeen, if_neg h]
      have hc : (!(seen.contains s.name)) = true := by
        simp [List.elem_iff, h]
      simp only [List.filter_cons, hc, if_pos]
      rw [specDedupFirst, ih (s.name :: seen), List.filter_filter]
      refine congrArg (fun l => s :: specDedupFirst l) (List.filter_congr ?_)
      intro x _
      simp only [List.contains_cons, Bool.not_or]

theorem mem_name_dedupSeen (n : String) (l : List Session) : ∀ seen : List String,
    (n ∈ (dedupSeen seen l).map (fun s => s.name)) ↔
      n ∉ seen ∧ n ∈ l.map (fun s => s.name) := by
  induction l with
  | nil => intro seen; simp [dedupSeen]
  | cons s rest ih =>
    intro seen
    by_cases h : s.name ∈ seen
    · rw [dedupSeen, if_pos h]
      rw [ih seen]
      simp only [List.map_cons, List.mem_cons]
      constructor
      · rintro ⟨h1, h2⟩; exact ⟨h1, Or.inr h2⟩
      · rintro ⟨h1, h2 | h2⟩
        · exact absurd (h2 ▸ h) h1
        · exact ⟨h1, h2⟩
    · rw [dedupSeen, if_neg h]
      simp only [List.map_cons, List.mem_cons, ih (s.name :: seen)]
      by_cases hn : n = s.name
      · subst hn; tauto
      · tauto

theorem find?_of_mem_dedupSeen (e : Session) (l : List Session) : ∀ seen : List String,
    e ∈ dedupSeen seen l →
      e.name ∉ seen ∧ l.find? (fun x => x.name == e.name) = some e := by
  induction l with
  | nil => intro seen h; simp [dedupSeen] at h
  | cons s rest ih =>
    intro seen h
    by_cases hs : s.name ∈ seen
    · rw [dedupSeen, if_pos hs] at h
      obtain ⟨h1, h2⟩ := ih seen h
      refine ⟨h1, ?_⟩
      have hne : ¬ ((fun x : Session => x.name == e.name) s = true) := by
        simp only [beq_iff_eq]
        intro heq
        exact h1 (heq ▸ hs)
      rw [List.find?_cons_of_neg rest hne, h2]
    · rw [dedupSeen, if_neg hs] at h
      rcases List.mem_cons.mp h with he | h'
      · subst he
        refine ⟨hs, List.find?_cons_of_pos rest ?_⟩
        exact beq_self_eq_true e.name
      · obtain ⟨h1, h2⟩ := ih (s.name :: seen) h'
        have hne : ¬ ((fun x : Session => x.name == e.name) s = true) := by
          simp only [beq_iff_eq]
          intro heq
          exact h1 (by simp [heq])
        refine ⟨fun hmem => h1 (List.mem_cons_of_mem _ hmem), ?_⟩
        rw [List.find?_cons_of_neg rest hne, h2]

theorem mem_of_mem_dedupSeen (e : Session) (l : List Session) (seen : List String)
    (h : e ∈ dedupSeen seen l) : e ∈ l :=
  List.mem_of_find?_eq_some (find?_of_mem_dedupSeen e l seen h).2

theorem nodup_names_dedupSeen (l : List Session) : ∀ seen : List String,
    ((dedupSeen seen l).map (fun s => s.name)).Nodup := by
  induction l with
  | nil => intro seen; simp [dedupSeen]
  | cons s rest ih =>
    intro seen
    by_cases hs : s.name ∈ seen
    · rw [dedupSeen, if_pos hs]; exact ih seen
    · rw [dedupSeen, if_neg hs]
      simp only [List.map_cons, List.nodup_cons]
      refine ⟨?_, ih _⟩
      intro hmem
      exact ((mem_name_dedupSeen s.name rest _).mp hmem).1 (List.mem_cons_self _ _)

/-- The concatenation of the four source groups in precedence order
(tmux, flat config, worktree-expanded config, zoxide), exactly as
`getSessions` assembles them before the dedup loop. -/
def sessionInputs (config : List ConfigSession) (tmuxOut zoxideOut : Option String)
    (wtOut : String → Option String) : List Session :=
  (getTmuxSessions tmuxOut).1 ++ (splitConfigSessions wtOut config).1 ++
    (splitConfigSessions wtOut config).2.1 ++ (getZoxideResults zoxideOut).1

theorem getSessions_fst (config : List ConfigSession) (tmuxOut zoxideOut : Option String)
    (wtOut : String → Option String) :
    (getSessions config tmuxOut zoxideOut wtOut).1 =
      dedupSeen [] ((sessionInputs config tmuxOut zoxideOut wtOut).map normSession) := by
  simp only [getSessions, sessionInputs]
  rw [dedupNormalize_eq_dedupSeen]

theorem splitConfigSessions_fst (wtOut : String → Option String) (config : List ConfigSession) :
    (splitConfigSessions wtOut config).1 = specFlatSessions config := by
  induction config with
  | nil => rfl
  | cons c rest ih =>
    by_cases h : c.type = some "worktreeroot" <;>
      simp [splitConfigSessions, specFlatSessions, List.filter_cons, h, ih]

theorem splitConfigSessions_snd (wtOut : String → Option String) (config : List ConfigSession) :
    (splitConfigSessions wtOut config).2.1 = specWorktreeSessions wtOut config := by
  induction config with
  | nil => rfl
  | cons c rest ih =>
    by_cases h : c.type = some "worktreeroot" <;>
      simp [splitConfigSessions, specWorktreeSessions, List.filter_cons, h, ih]

/-- C1. For every config list and every set of raw tool outputs (hence
every live tmux list, worktree list and zoxide list), the catalog
built by `getSessions` equals the specification pipeline: concatenate
live tmux sessions, flat config sessions (name = path),
worktree-expanded config sessions and zoxide sessions in that order,
normalize every name (`.` becomes `_`), and deduplicate by normalized
name keeping the first occurrence in precedence order and discarding
later duplicates. -/
theorem getSessions_is_spec_pipeline (config : List ConfigSession)
    (tmuxOut zoxideOut : Option String) (wtOut : String → Option String) :
    (getSessions config tmuxOut zoxideOut wtOut).1 =
      specDedupFirst
        (((getTmuxSessions tmuxOut).1 ++ specFlatSessions config ++
          specWorktreeSessions wtOut config ++ (getZoxideResults zoxideOut).1).map
          normSession) := by
  rw [getSessions_fst, dedupSeen_eq_specDedupFirst]
  congr 1
  rw [List.filter_congr (q := fun _ => true) (by intro x _; rfl), List.filter_true]
  simp only [sessionInputs, splitConfigSessions_fst, splitConfigSessions_snd]

theorem getTmuxSessions_shape (out : Option String) :
    ∀ s ∈ (getTmuxSessions out).1, s.path = "" ∧ s.type = "" ∧ s.tmuxinator = "" := by
  intro s hs
  cases out with
  | none => simp [getTmuxSessions] at hs
  | some o =>
    simp only [getTmuxSessions, List.mem_filterMap] at hs
    obtain ⟨line, _, hline⟩ := hs
    by_cases h : trimSpace line = ""
    · simp [h] at hline
    · simp only [if_neg h] at hline
      injection hline with hline
      subst hline
      exact ⟨rfl, rfl, rfl⟩

theorem find?_inputs_of_mem_catalog (config : List ConfigSession)
    (tmuxOut zoxideOut : Option String) (wtOut : String → Option String) (e : Session)
    (he : e ∈ (getSessions config tmuxOut zoxideOut wtOut).1) :
    ∃ x, (sessionInputs config tmuxOut zoxideOut wtOut).find?
        (fun x => normalizeName x.name == e.name) = some x ∧ e = normSession x := by
  rw [getSessions_fst] at he
  have h := (find?_of_mem_dedupSeen e _ [] he).2
  rw [List.find?_map] at h
  obtain ⟨x, hx, hmap⟩ := Option.map_eq_some'.mp h
  exact ⟨x, hx, hmap.symm⟩

/-- C2. If a live tmux session and a flat config entry have equal
normalized names, the single catalog entry under that name exists and
is the tmux session's record — name normalized, and path, type and
tmuxinator all empty (in particular it has no path), not the config
entry's record. -/
theorem tmux_wins_over_config (config : List ConfigSession)
    (tmuxOut zoxideOut : Option String) (wtOut : String → Option String)
    (t : Session) (c : ConfigSession)
    (ht : t ∈ (getTmuxSessions tmuxOut).1)
    (hc : c ∈ config) (hcty : c.type ≠ some "worktreeroot")
    (hname : normalizeName c.path = normalizeName t.name) :
    (∃ e ∈ (getSessions config tmuxOut zoxideOut wtOut).1,
        e.name = normalizeName t.name) ∧
    ∀ e ∈ (getSessions config tmuxOut zoxideOut wtOut).1,
      e.name = normalizeName t.name →
        e = { name := normalizeName t.name, path := "", type := "", tmuxinator := "" } := by
  constructor
  · have hmem : normalizeName t.name ∈
        ((getSessions config tmuxOut zoxideOut wtOut).1.map (fun s => s.name)) := by
      rw [getSessions_fst, mem_name_dedupSeen]
      refine ⟨by simp, ?_⟩
      rw [List.map_map]
      exact List.mem_map.mpr ⟨t, by simp [sessionInputs, ht], rfl⟩
    obtain ⟨e, he, hne⟩ := List.mem_map.mp hmem
    exact ⟨e, he, hne⟩
  · intro e he hename
    obtain ⟨x, hfind, hex⟩ := find?_inputs_of_mem_catalog config tmuxOut zoxideOut wtOut e he
    have htfirst : (getTmuxSessions tmuxOut).1.find?
        (fun x => normalizeName x.name == e.name) = some x := by
      have hsome : ((getTmuxSessions tmuxOut).1.find?
          (fun x => normalizeName x.name == e.name)).isSome := by
        rw [List.find?_isSome]
        exact ⟨t, ht, by simp [hename]⟩
      obtain ⟨a, ha⟩ := Option.isSome_iff_exists.mp hsome
      have : (sessionInputs config tmuxOut zoxideOut wtOut).find?
          (fun x => normalizeName x.name == e.name) = some a := by
        simp only [sessionInputs, List.append_assoc, List.find?_append, ha, Option.or_some]
      rw [this] at hfind
      rw [ha, hfind]
    have hxmem : x ∈ (getTmuxSessions tmuxOut).1 := List.mem_of_find?_eq_some htfirst
    have hxname : normalizeName x.name = e.name := by
      have := List.find?_some htfirst
      simpa using this
    obtain ⟨hp, hty, htm⟩ := getTmuxSessions_shape tmuxOut x hxmem
    rw [hex]
    simp only [normSession]
    rw [hxname, hename, hp, hty, htm]

theorem normalizeName_no_dot (s : String) : '.' ∉ (normalizeName s).data := by
  intro hc
  obtain ⟨a, _, ha⟩ := List.mem_map.mp hc
  by_cases h : a = '.' <;> simp [h] at ha

theorem catalog_entry_no_dot (config : List ConfigSession) (tmuxOut zoxideOut : Option String)
    (wtOut : String → Option String) (e : Session)
    (he : e ∈ (getSessions config tmuxOut zoxideOut wtOut).1) : '.' ∉ e.name.data := by
  rw [getSessions_fst] at he
  obtain ⟨x, _, hx⟩ := List.mem_map.mp (mem_of_mem_dedupSeen e _ [] he)
  rw [← hx]
  exact normalizeName_no_dot _

theorem splitConfigSessions_trace (wtOut : String → Option String) (config : List ConfigSession) :
    ∀ x ∈ (splitConfigSessions wtOut config).2.2, x.isMutating = false := by
  induction config with
  | nil => simp [splitConfigSessions]
  | cons c rest ih =>
    intro x hx
    simp only [splitConfigSessions] at hx
    by_cases h : c.type = some "worktreeroot"
    · rw [if_pos h] at hx
      rcases List.mem_cons.mp hx with he | hx'
      · rw [he]; rfl
      · exact ih x hx'
    · rw [if_neg h] at hx
      exact ih x hx

theorem getSessions_trace_queries (config : List ConfigSession)
    (tmuxOut zoxideOut : Option String) (wtOut : String → Option String) :
    ∀ x ∈ (getSessions config tmuxOut zoxideOut wtOut).2, x.isMutating = false := by
  intro x hx
  simp only [getSessions, List.mem_cons] at hx
  rcases hx with h | h | h
  · rw [h]; rfl
  · rw [h]; rfl
  · exact splitConfigSessions_trace wtOut config x h

/-- C3. A session named `a.b.c` in any of the four source groups shows
up in the catalog under the normalized name `a_b_c`; and when two
sources produce the names `a.b` and `a_b`, the catalog holds exactly
one entry named `a_b` — the normalization of the first element in
precedence order whose normalized name is `a_b`. -/
theorem normalize_and_dedup (config : List ConfigSession)
    (tmuxOut zoxideOut : Option String) (wtOut : String → Option String)
    (sd s1 s2 : Session)
    (hd : sd ∈ sessionInputs config tmuxOut zoxideOut wtOut) (hdname : sd.name = "a.b.c")
    (h1 : s1 ∈ sessionInputs config tmuxOut zoxideOut wtOut) (h1name : s1.name = "a.b")
    (h2 : s2 ∈ sessionInputs config tmuxOut zoxideOut wtOut) (h2name : s2.name = "a_b") :
    (∃ e ∈ (getSessions config tmuxOut zoxideOut wtOut).1, e.name = "a_b_c") ∧
    (∃ e ∈ (getSessions config tmuxOut zoxideOut wtOut).1, e.name = "a_b" ∧
      (∀ e' ∈ (getSessions config tmuxOut zoxideOut wtOut).1, e'.name = "a_b" → e' = e) ∧
      ∃ x, (sessionInputs config tmuxOut zoxideOut wtOut).find?
          (fun x => normalizeName x.name == "a_b") = some x ∧ e = normSession x) := by
  have hmemname : ∀ (s : Session) (n : String), s ∈ sessionInputs config tmuxOut zoxideOut wtOut →
      normalizeName s.name = n →
      ∃ e ∈ (getSessions config tmuxOut zoxideOut wtOut).1, e.name = n := by
    intro s n hs hn
    have : n ∈ ((getSessions config tmuxOut zoxideOut wtOut).1.map (fun s => s.name)) := by
      rw [getSessions_fst, mem_name_dedupSeen]
      refine ⟨by simp, ?_⟩
      rw [List.map_map]
      exact List.mem_map.mpr ⟨s, hs, hn⟩
    obtain ⟨e, he, hne⟩ := List.mem_map.mp this
    exact ⟨e, he, hne⟩
  refine ⟨hmemname sd "a_b_c" hd (by rw [hdname]; decide), ?_⟩
  obtain ⟨e, he, hename⟩ := hmemname s2 "a_b" h2 (by rw [h2name]; decide)
  refine ⟨e, he, hename, ?_, ?_⟩
  · intro e' he' hename'
    have hfe := (find?_of_mem_dedupSeen e _ [] (getSessions_fst _ _ _ _ ▸ he)).2
    have hfe' := (find?_of_mem_dedupSeen e' _ [] (getSessions_fst _ _ _ _ ▸ he')).2
    rw [hename] at hfe
    rw [hename'] at hfe'
    rw [hfe] at hfe'
    exact (Option.some_inj.mp hfe').symm
  · obtain ⟨x, hx, hex⟩ := find?_inputs_of_mem_catalog config tmuxOut zoxideOut wtOut e he
    rw [hename] at hx
    exact ⟨x, hx, hex⟩

theorem connect_not_found_eq (config : List ConfigSession)
    (tmuxOut zoxideOut : Option String) (wtOut : String → Option String)
    (n : String) (runOk : ExtCmd → Bool) (tmuxOut2 : Option String)
    (insideTmux tmuxOnPath : Bool)
    (hfind : (getSessions config tmuxOut zoxideOut wtOut).1.find?
      (fun s => s.name == n) = none) :
    connectSessionCmd runOk [n] (Except.ok config) tmuxOut zoxideOut wtOut
        tmuxOut2 insideTmux tmuxOnPath =
      (ConnectResult.err ("session " ++ n ++ " not found"),
       (getSessions config tmuxOut zoxideOut wtOut).2) := by
  simp only [connectSessionCmd, hfind]

/-- C9. The catalog's names are pairwise distinct, no catalog name
contains a `.` character, and consequently `connect` with a target
name containing a `.` always fails with the not-found error, its
trace holding only the read-only listing queries. -/
theorem catalog_names_invariant (config : List ConfigSession)
    (tmuxOut zoxideOut : Option String) (wtOut : String → Option String) :
    ((getSessions config tmuxOut zoxideOut wtOut).1.map (fun s => s.name)).Nodup ∧
    (∀ e ∈ (getSessions config tmuxOut zoxideOut wtOut).1, '.' ∉ e.name.data) ∧
    (∀ n : String, '.' ∈ n.data →
      ∀ (runOk : ExtCmd → Bool) (tmuxOut2 : Option String) (insideTmux tmuxOnPath : Bool),
        connectSessionCmd runOk [n] (Except.ok config) tmuxOut zoxideOut wtOut
            tmuxOut2 insideTmux tmuxOnPath =
          (ConnectResult.err ("session " ++ n ++ " not found"),
           (getSessions config tmuxOut zoxideOut wtOut).2) ∧
        ∀ x ∈ (connectSessionCmd runOk [n] (Except.ok config) tmuxOut zoxideOut wtOut
            tmuxOut2 insideTmux tmuxOnPath).2, x.isMutating = false) := by
  refine ⟨?_, catalog_entry_no_dot config tmuxOut zoxideOut wtOut, ?_⟩
  · rw [getSessions_fst]
    exact nodup_names_dedupSeen _ []
  · intro n hn runOk tmuxOut2 insideTmux tmuxOnPath
    have hfind : (getSessions config tmuxOut zoxideOut wtOut).1.find?
        (fun s => s.name == n) = none := by
      rw [List.find?_eq_none]
      intro e he
      simp only [beq_iff_eq]
      intro heq
      exact catalog_entry_no_dot config tmuxOut zoxideOut wtOut e he (heq ▸ hn)
    have heq := connect_not_found_eq config tmuxOut zoxideOut wtOut n runOk tmuxOut2
      insideTmux tmuxOnPath hfind
    refine ⟨heq, ?_⟩
    rw [heq]
    exact getSessions_trace_queries config tmuxOut zoxideOut wtOut

/-- C4. If the target name matches no catalog entry, `connect` returns
the "session … not found" error (a non-zero exit with a not-found
diagnostic), and its trace holds only the read-only listing queries —
no session creation, client switch, or attach is invoked. -/
theorem connect_unknown_name (config : List ConfigSession)
    (tmuxOut zoxideOut : Option String) (wtOut : String → Option String)
    (n : String) (runOk : ExtCmd → Bool) (tmuxOut2 : Option String)
    (insideTmux tmuxOnPath : Bool)
    (h : ∀ e ∈ (getSessions config tmuxOut zoxideOut wtOut).1, e.name ≠ n) :
    connectSessionCmd runOk [n] (Except.ok config) tmuxOut zoxideOut wtOut
        tmuxOut2 insideTmux tmuxOnPath =
      (ConnectResult.err ("session " ++ n ++ " not found"),
       (getSessions config tmuxOut zoxideOut wtOut).2) ∧
    ∀ x ∈ (connectSessionCmd runOk [n] (Except.ok config) tmuxOut zoxideOut wtOut
        tmuxOut2 insideTmux tmuxOnPath).2, x.isMutating = false := by
  have hfind : (getSessions config tmuxOut zoxideOut wtOut).1.find?
      (fun s => s.name == n) = none := by
    rw [List.find?_eq_none]
    intro e he
    simp only [beq_iff_eq]
    exact h e he
  have heq := connect_not_found_eq config tmuxOut zoxideOut wtOut n runOk tmuxOut2
    insideTmux tmuxOnPath hfind
  refine ⟨heq, ?_⟩
  rw [heq]
  exact getSessions_trace_queries config tmuxOut zoxideOut wtOut

/-- C5. When the target resolves to a catalog entry and the fresh
tmux query reports the session as already existing, `connect` invokes
no session-creation command: the only mutating external action is a
single client switch when the process is inside tmux, and a single
process-replacing attach otherwise. -/
theorem connect_existing_no_create (config : List ConfigSession)
    (tmuxOut zoxideOut : Option String) (wtOut : String → Option String)
    (tmuxOut2 : Option String) (n : String) (sel : Session)
    (runOk : ExtCmd → Bool) (insideTmux : Bool)
    (hfind : (getSessions config tmuxOut zoxideOut wtOut).1.find?
      (fun s => s.name == n) = some sel)
    (hex : (getTmuxSessions tmuxOut2).1.any (fun s => s.name == sel.name) = true) :
    ((connectSessionCmd runOk [n] (Except.ok config) tmuxOut zoxideOut wtOut
        tmuxOut2 insideTmux true).2.filter ExtCmd.isMutating =
      [if insideTmux then ExtCmd.switchClient sel.name else ExtCmd.attachSession n]) ∧
    (∀ nm p, ExtCmd.newSession nm p ∉ (connectSessionCmd runOk [n] (Except.ok config)
        tmuxOut zoxideOut wtOut tmuxOut2 insideTmux true).2) ∧
    (∀ p nm pr, ExtCmd.tmuxinatorStart p nm pr ∉ (connectSessionCmd runOk [n]
        (Except.ok config) tmuxOut zoxideOut wtOut tmuxOut2 insideTmux true).2) := by
  have hq : (getSessions config tmuxOut zoxideOut wtOut).2.filter ExtCmd.isMutating = [] :=
    List.filter_eq_nil_iff.mpr (by
      intro a ha
      simp [getSessions_trace_queries config tmuxOut zoxideOut wtOut a ha])
  have htr : (connectSessionCmd runOk [n] (Except.ok config) tmuxOut zoxideOut wtOut
      tmuxOut2 insideTmux true).2 =
      (getSessions config tmuxOut zoxideOut wtOut).2 ++ [ExtCmd.tmuxListSessions] ++
        [if insideTmux then ExtCmd.switchClient sel.name else ExtCmd.attachSession n] := by
    cases insideTmux with
    | true =>
      simp only [connectSessionCmd, hfind, hex, if_true, if_pos]
      simp [switchToTmuxSession]
    | false =>
      simp only [connectSessionCmd, hfind, hex, if_false, if_pos]
      simp [execTmuxAttach]
  refine ⟨?_, ?_, ?_⟩
  · rw [htr]
    simp only [List.filter_append, hq, List.nil_append]
    cases insideTmux <;> rfl
  · intro nm p hmem
    rw [htr] at hmem
    rcases List.mem_append.mp hmem with hmem' | hmem'
    · rcases List.mem_append.mp hmem' with hmem'' | hmem''
      · simpa [ExtCmd.isMutating] using getSessions_trace_queries config tmuxOut zoxideOut wtOut _ hmem''
      · simp at hmem''
    · cases insideTmux <;> simp at hmem'
  · intro p nm pr hmem
    rw [htr] at hmem
    rcases List.mem_append.mp hmem with hmem' | hmem'
    · rcases List.mem_append.mp hmem' with hmem'' | hmem''
      · simpa [ExtCmd.isMutating] using getSessions_trace_queries config tmuxOut zoxideOut wtOut _ hmem''
      · simp at hmem''
    · cases insideTmux <;> simp at hmem'

/-- C6. `createTmuxSession` with a non-empty path invokes exactly the
tmuxinator launcher (named, with profile, prompt auto-confirmed, left
detached) when a profile is set, and the detached `tmux new-session`
with name and working directory otherwise, failing exactly when that
command exits non-zero; with an empty path it fails without invoking
any command; and a creation error is fatal for `connect`, which
returns it unchanged. -/
theorem create_session_contract (runOk : ExtCmd → Bool) (s : Session) :
    (s.path = "" → createTmuxSession runOk s =
      (Except.error "session path is missing, cannot create session", [])) ∧
    (s.path ≠ "" → s.tmuxinator ≠ "" → createTmuxSession runOk s =
      ((if runOk (ExtCmd.tmuxinatorStart s.path s.name s.tmuxinator) then Except.ok ()
        else Except.error "error starting tmuxinator session"),
       [ExtCmd.tmuxinatorStart s.path s.name s.tmuxinator])) ∧
    (s.path ≠ "" → s.tmuxinator = "" → createTmuxSession runOk s =
      ((if runOk (ExtCmd.newSession s.name s.path) then Except.ok ()
        else Except.error "error creating new tmux session"),
       [ExtCmd.newSession s.name s.path])) ∧
    (∀ (config : List ConfigSession) (tmuxOut zoxideOut : Option String)
        (wtOut : String → Option String) (tmuxOut2 : Option String)
        (insideTmux tmuxOnPath : Bool) (n e : String),
      (getSessions config tmuxOut zoxideOut wtOut).1.find? (fun x => x.name == n) = some s →
      (getTmuxSessions tmuxOut2).1.any (fun x => x.name == s.name) = false →
      (createTmuxSession runOk s).1 = Except.error e →
      (connectSessionCmd runOk [n] (Except.ok config) tmuxOut zoxideOut wtOut
          tmuxOut2 insideTmux tmuxOnPath).1 = ConnectResult.err e) := by
  refine ⟨?_, ?_, ?_, ?_⟩
  · intro h
    simp [createTmuxSession, h]
  · intro h h2
    simp [createTmuxSession, h, h2]
  · intro h h2
    simp [createTmuxSession, h, h2]
  · intro config tmuxOut zoxideOut wtOut tmuxOut2 insideTmux tmuxOnPath n e hfind hany hcr
    cases insideTmux <;>
      simp only [connectSessionCmd, hfind, hany, hcr, Bool.false_eq_true, if_false, if_true]

/-- C7. A failed listing tool (`none` output: the binary cannot run
or exits non-zero) contributes an empty list for its source, and the
catalog is still built from the remaining sources: with tmux failing
the catalog is the merge of config and zoxide sessions alone, and
with zoxide failing `list` still succeeds, printing the merge of
tmux, flat-config and worktree sessions alone. -/
theorem failed_source_degrades (config : List ConfigSession)
    (tmuxOut zoxideOut : Option String) (wtOut : String → Option String) :
    (getTmuxSessions none).1 = [] ∧
    (getZoxideResults none).1 = [] ∧
    (getGitWorktrees none).1 = [] ∧
    (getSessions config none zoxideOut wtOut).1 =
      dedupNormalize [] ((splitConfigSessions wtOut config).1 ++
        (splitConfigSessions wtOut config).2.1 ++ (getZoxideResults zoxideOut).1) ∧
    (splitConfigSessions (fun _ => none) config).2.1 = [] ∧
    (getSessions config tmuxOut zoxideOut (fun _ => none)).1 =
      dedupNormalize [] ((getTmuxSessions tmuxOut).1 ++
        (splitConfigSessions (fun _ => none) config).1 ++ (getZoxideResults zoxideOut).1) ∧
    listSessionsCmd (Except.ok config) tmuxOut none wtOut =
      Except.ok ((dedupNormalize [] ((getTmuxSessions tmuxOut).1 ++
        (splitConfigSessions wtOut config).1 ++
        (splitConfigSessions wtOut config).2.1)).map (fun s => s.name)) := by
  have hwt : (splitConfigSessions (fun _ => none) config).2.1 = [] := by
    induction config with
    | nil => rfl
    | cons c rest ih =>
      by_cases h : c.type = some "worktreeroot" <;>
        simp [splitConfigSessions, h, ih, getGitWorktrees]
  refine ⟨rfl, rfl, rfl, ?_, hwt, ?_, ?_⟩
  · simp [getSessions, getTmuxSessions]
  · simp [getSessions, hwt]
  · simp [listSessionsCmd, getSessions, getZoxideResults]

/-- C8 (amended). When an external listing tool fails, the program
degrades that source to an empty list and emits no diagnostic at all:
the failure is swallowed silently (each lister's diagnostic stream is
empty on failure). -/
theorem failed_source_silent :
    getTmuxSessions none = ([], []) ∧
    getZoxideResults none = ([], []) ∧
    getGitWorktrees none = ([], []) := ⟨rfl, rfl, rfl⟩

/-- C8 (counterexample to the claim as stated): when the tmux lister
fails, it does degrade to an empty session list, but its diagnostic
output is empty — no diagnostic message is emitted for the failure. -/
theorem failed_source_silent_counterexample :
    (getTmuxSessions none).1 = [] ∧ ¬ (getTmuxSessions none).2 ≠ [] :=
  ⟨rfl, fun h => h rfl⟩

/-- C10. `connect` invoked with zero arguments returns success
immediately: no error, no catalog built, and no external command
invoked — even though the CLI usage string declares a `<session>`
argument, the argument validator (`cobra.MaximumNArgs(1)`) accepts an
empty argument list. -/
theorem connect_no_args (runOk : ExtCmd → Bool)
    (configRes : Except String (List ConfigSession))
    (tmuxOut zoxideOut : Option String) (wtOut : String → Option String)
    (tmuxOut2 : Option String) (insideTmux tmuxOnPath : Bool) :
    connectSessionCmd runOk [] configRes tmuxOut zoxideOut wtOut tmuxOut2
      insideTmux tmuxOnPath = (ConnectResult.ok, []) := rfl

theorem tmux_wins_over_config_witness :
    (∃ e ∈ (getSessions [⟨none, "proj.x", "tp"⟩] (some "proj.x\n") none (fun _ => none)).1,
        e.name = normalizeName "proj.x") ∧
    ∀ e ∈ (getSessions [⟨none, "proj.x", "tp"⟩] (some "proj.x\n") none (fun _ => none)).1,
      e.name = normalizeName "proj.x" →
        e = { name := normalizeName "proj.x", path := "", type := "", tmuxinator := "" } :=
  tmux_wins_over_config [⟨none, "proj.x", "tp"⟩] (some "proj.x\n") none (fun _ => none)
    ⟨"proj.x", "", "", ""⟩ ⟨none, "proj.x", "tp"⟩
    (by decide) (by decide) (by decide) rfl

theorem normalize_and_dedup_witness :
    (∃ e ∈ (getSessions [⟨none, "a.b", ""⟩] (some "a.b.c\n") (some "a_b\n")
        (fun _ => none)).1, e.name = "a_b_c") ∧
    (∃ e ∈ (getSessions [⟨none, "a.b", ""⟩] (some "a.b.c\n") (some "a_b\n")
        (fun _ => none)).1, e.name = "a_b" ∧
      (∀ e' ∈ (getSessions [⟨none, "a.b", ""⟩] (some "a.b.c\n") (some "a_b\n")
          (fun _ => none)).1, e'.name = "a_b" → e' = e) ∧
      ∃ x, (sessionInputs [⟨none, "a.b", ""⟩] (some "a.b.c\n") (some "a_b\n")
          (fun _ => none)).find?
          (fun x => normalizeName x.name == "a_b") = some x ∧ e = normSession x) :=
  normalize_and_dedup [⟨none, "a.b", ""⟩] (some "a.b.c\n") (some "a_b\n") (fun _ => none)
    ⟨"a.b.c", "", "", ""⟩ ⟨"a.b", "a.b", "", ""⟩ ⟨"a_b", "a_b", "", ""⟩
    (by decide) rfl (by decide) rfl (by decide) rfl

theorem connect_unknown_name_witness :
    connectSessionCmd (fun _ => true) ["missing"] (Except.ok []) none none
        (fun _ => none) none false false =
      (ConnectResult.err ("session " ++ "missing" ++ " not found"),
       (getSessions [] none none (fun _ => none)).2) ∧
    ∀ x ∈ (connectSessionCmd (fun _ => true) ["missing"] (Except.ok []) none none
        (fun _ => none) none false false).2, x.isMutating = false :=
  connect_unknown_name [] none none (fun _ => none) "missing" (fun _ => true) none
    false false (by decide)

theorem connect_existing_no_create_witness :
    ((connectSessionCmd (fun _ => true) ["existing"] (Except.ok []) (some "existing\n")
        none (fun _ => none) (some "existing\n") true true).2.filter ExtCmd.isMutating =
      [if true then ExtCmd.switchClient (Session.name ⟨"existing", "", "", ""⟩)
       else ExtCmd.attachSession "existing"]) ∧
    (∀ nm p, ExtCmd.newSession nm p ∉ (connectSessionCmd (fun _ => true) ["existing"]
        (Except.ok []) (some "existing\n") none (fun _ => none) (some "existing\n")
        true true).2) ∧
    (∀ p nm pr, ExtCmd.tmuxinatorStart p nm pr ∉ (connectSessionCmd (fun _ => true)
        ["existing"] (Except.ok []) (some "existing\n") none (fun _ => none)
        (some "existing\n") true true).2) :=
  connect_existing_no_create [] (some "existing\n") none (fun _ => none)
    (some "existing\n") "existing" ⟨"existing", "", "", ""⟩ (fun _ => true) true
    (by decide) (by decide)

theorem create_session_contract_witness :
    (createTmuxSession (fun _ => false) ⟨"w", "", "", ""⟩ =
      (Except.error "session path is missing, cannot create session", [])) ∧
    (createTmuxSession (fun _ => false) ⟨"w", "/p", "", "prof"⟩ =
      (Except.error "error starting tmuxinator session",
       [ExtCmd.tmuxinatorStart "/p" "w" "prof"])) ∧
    (createTmuxSession (fun _ => false) ⟨"w", "/p", "", ""⟩ =
      (Except.error "error creating new tmux session", [ExtCmd.newSession "w" "/p"])) ∧
    ((connectSessionCmd (fun _ => false) ["/p"] (Except.ok [⟨none, "/p", ""⟩]) none none
        (fun _ => none) none false false).1 =
      ConnectResult.err "error creating new tmux session") :=
  ⟨(create_session_contract (fun _ => false) ⟨"w", "", "", ""⟩).1 rfl,
   by simpa using
     (create_session_contract (fun _ => false) ⟨"w", "/p", "", "prof"⟩).2.1
       (by decide) (by decide),
   by simpa using
     (create_session_contract (fun _ => false) ⟨"w", "/p", "", ""⟩).2.2.1 (by decide) rfl,
   (create_session_contract (fun _ => false) ⟨"/p", "/p", "", ""⟩).2.2.2
     [⟨none, "/p", ""⟩] none none (fun _ => none) none false false "/p"
     "error creating new tmux session" (by decide) (by decide) rfl⟩

theorem catalog_names_invariant_witness :
    connectSessionCmd (fun _ => true) ["a.b"] (Except.ok []) none none (fun _ => none)
        none false false =
      (ConnectResult.err ("session " ++ "a.b" ++ " not found"),
       (getSessions [] none none (fun _ => none)).2) ∧
    ∀ x ∈ (connectSessionCmd (fun _ => true) ["a.b"] (Except.ok []) none none
        (fun _ => none) none false false).2, x.isMutating = false :=
  (catalog_names_invariant [] none none (fun _ => none)).2.2 "a.b" (by decide)
    (fun _ => true) none false false

end Mingle
